import Mathlib

/-!
Verification of the get-changed-files action against its specification.

The development shallowly embeds the program logic of `src/main.ts` and
`src/git-helper.ts`:

* pure helpers over `List Char` model the JavaScript string builtins used by
  the source (`split(' ')`, `trim`, `includes`, `path.extname`,
  `JSON.stringify`, regular-expression search);
* the event resolver for `workflow_dispatch` and the diff classifier and
  formatter of `run()` become explicit functions from their inputs (event
  name, format, extensions input, comparison response, branch listing) to a
  record of the failure messages reported via `core.setFailed`, the
  classified path groups, the rendered outputs set via `core.setOutput`, and
  the process exit code.

`core.setFailed` in the source reports a message and marks the process exit
code as failing but does not stop execution; only `panic` (used for the
missing-parent-branch case of the workflow_dispatch handler) exits the
process immediately.  The model mirrors this: failure messages accumulate in
a list while execution continues, and only the panic path yields a result
with no outputs.
-/

/-- Output format, from `type Format` in main.ts. -/
inductive Format where
  | spaceDelimited
  | csv
  | json
deriving DecidableEq

/-- One entry of the comparison response (`response.data.files` element).
The status is kept as a raw string: the source casts it unchecked. -/
structure ChangedFileEntry where
  filename : String
  status : String
deriving DecidableEq

/-- The comparison capability response: HTTP status, `data.status`
(the ahead/behind/identical/diverged relation), and the changed files.
The source reads `response.data.files?`; an absent list behaves exactly like
an empty one (the optional-chained `filter`/`forEach` do nothing), so it is
modelled as a plain list. -/
structure CompareResponse where
  status : Nat
  dataStatus : String
  files : List ChangedFileEntry
deriving DecidableEq

/-- JavaScript whitespace test used by `String.prototype.trim` (ASCII part). -/
def jsWhitespace (c : Char) : Bool :=
  c.toNat = 32 || c.toNat = 9 || c.toNat = 10 || c.toNat = 11 || c.toNat = 12 || c.toNat = 13

/-- Model of `String.prototype.trim` on the character list. -/
def trimChars (l : List Char) : List Char :=
  ((l.dropWhile jsWhitespace).reverse.dropWhile jsWhitespace).reverse

/-- Model of `String.prototype.split(sep)` for a single-character separator:
`"".split(' ') = [""]`, `" a".split(' ') = ["", "a"]`, and so on. -/
def splitOnChar (sep : Char) : List Char → List (List Char)
  | [] => [[]]
  | c :: rest =>
    if c = sep then [] :: splitOnChar sep rest
    else
      match splitOnChar sep rest with
      | [] => [[c]]
      | t :: ts => (c :: t) :: ts

/-- Model of `(core.getInput('extensions') || '').split(' ').map(it => it.trim())`. -/
def extensionsOf (input : String) : List String :=
  (splitOnChar ' ' input.data).map (fun t => String.mk (trimChars t))

/-- Model of Node `path.extname` on the character list: the slice of the
basename from its last dot, unless there is no dot, the dot is the first
character of the basename, or the basename is exactly `..`. -/
def extnameChars (l : List Char) : List Char :=
  let b := (l.reverse.takeWhile (fun c => ¬ c = '/')).reverse
  let sufLen := (b.reverse.takeWhile (fun c => ¬ c = '.')).length
  if sufLen = b.length then []
  else
    let i := b.length - sufLen - 1
    if i = 0 then []
    else if b = ['.', '.'] then []
    else b.drop i

/-- Model of Node `path.extname` on strings. -/
def extname (s : String) : String :=
  String.mk (extnameChars s.data)

/-- Model of `filename.includes(' ')`. -/
def hasSpace (s : String) : Bool :=
  s.data.contains ' '

/-- The filter predicate of
`files?.filter(it => extensions.includes(path.extname(it.filename)) || extensions.includes(''))`. -/
def keepFile (exts : List String) (e : ChangedFileEntry) : Bool :=
  exts.contains (extname e.filename) || exts.contains ""

/-- Message of the non-200 comparison-status failure. -/
def apiErrorMessage (eventName : String) (status : Nat) : String :=
  "The GitHub API for comparing the base and head commits for this " ++ eventName ++
    " event returned " ++ toString status ++ ", expected 200. " ++
    "Please submit an issue on this action\x27s GitHub repo."

/-- Message of the not-ahead comparison failure. -/
def aheadErrorMessage (eventName : String) : String :=
  "The head commit for this " ++ eventName ++ " event is not ahead of the base commit. " ++
    "Please submit an issue on this action\x27s GitHub repo."

/-- Message reported inside the classification loop when a filename contains a
space under the space-delimited format. -/
def spaceMessageClassify : String :=
  "One of your files includes a space. Consider using a different output format or " ++
    "removing spaces from your filenames. " ++
    "Please submit an issue on this action\x27s GitHub repo."

/-- Message reported inside the space-delimited rendering loop for a filename
containing a space. -/
def spaceMessageRender : String :=
  "One of your files includes a space. Consider using a different output format or " ++
    "removing spaces from your filenames."

/-- Message reported for a file status outside the four known kinds. -/
def unsupportedStatusMessage (st : String) : String :=
  "One of your files includes an unsupported file status \x27" ++ st ++
    "\x27, expected \x27added\x27, \x27modified\x27, \x27removed\x27, or \x27renamed\x27."

/-- The six path groups built by the classification loop, together with the
failure messages it reports. -/
structure Groups where
  all : List String
  added : List String
  modified : List String
  removed : List String
  renamed : List String
  addedModifiedRenamed : List String
  failures : List String
deriving DecidableEq

/-- The groups before any entry is processed. -/
def emptyGroups : Groups :=
  { all := [], added := [], modified := [], removed := [], renamed := [],
    addedModifiedRenamed := [], failures := [] }

/-- One iteration of the `files?.forEach(file => ...)` classification loop. -/
def classifyStep (fmt : Format) (g : Groups) (e : ChangedFileEntry) : Groups :=
  let fn := e.filename
  let fail1 :=
    if fmt = Format.spaceDelimited && hasSpace fn then g.failures ++ [spaceMessageClassify]
    else g.failures
  let g1 : Groups := { g with failures := fail1, all := g.all ++ [fn] }
  if e.status = "added" then
    { g1 with added := g1.added ++ [fn],
              addedModifiedRenamed := g1.addedModifiedRenamed ++ [fn] }
  else if e.status = "modified" then
    { g1 with modified := g1.modified ++ [fn],
              addedModifiedRenamed := g1.addedModifiedRenamed ++ [fn] }
  else if e.status = "removed" then
    { g1 with removed := g1.removed ++ [fn] }
  else if e.status = "renamed" then
    { g1 with renamed := g1.renamed ++ [fn],
              addedModifiedRenamed := g1.addedModifiedRenamed ++ [fn] }
  else
    { g1 with failures := g1.failures ++ [unsupportedStatusMessage e.status] }

/-- The whole classification loop over the filtered files. -/
def classify (fmt : Format) (files : List ChangedFileEntry) : Groups :=
  files.foldl (classifyStep fmt) emptyGroups

/-- Hexadecimal digit character, lowercase, as used by JSON escaping. -/
def hexDigitChar (n : Nat) : Char :=
  if n < 10 then Char.ofNat (48 + n) else Char.ofNat (87 + n)

/-- JSON escaping of one character, following `JSON.stringify` for strings:
quote and backslash escapes, short escapes for backspace, tab, newline, form
feed and carriage return, and a `u00XX` escape for the remaining control
characters. -/
def escapeChar (c : Char) : List Char :=
  if c = '"' then ['\\', '"']
  else if c = '\\' then ['\\', '\\']
  else if c.toNat = 8 then ['\\', 'b']
  else if c.toNat = 9 then ['\\', 't']
  else if c.toNat = 10 then ['\\', 'n']
  else if c.toNat = 12 then ['\\', 'f']
  else if c.toNat = 13 then ['\\', 'r']
  else if c.toNat < 32 then
    ['\\', 'u', '0', '0', hexDigitChar (c.toNat / 16), hexDigitChar (c.toNat % 16)]
  else [c]

/-- JSON escaping of a character list. -/
def escapeList : List Char → List Char
  | [] => []
  | c :: cs => escapeChar c ++ escapeList cs

/-- A JSON string literal for a character list. -/
def renderStringChars (s : List Char) : List Char :=
  '"' :: escapeList s ++ ['"']

/-- The comma-separated element renderings inside a JSON array. -/
def renderElemsChars : List (List Char) → List Char
  | [] => []
  | [x] => renderStringChars x
  | x :: xs => renderStringChars x ++ ',' :: renderElemsChars xs

/-- Model of `JSON.stringify` on an array of strings, as a character list. -/
def renderJsonChars (l : List (List Char)) : List Char :=
  '[' :: renderElemsChars l ++ [']']

/-- Model of `JSON.stringify` on an array of strings. -/
def renderJson (l : List String) : String :=
  String.mk (renderJsonChars (l.map String.data))

/-- Render one group in the requested format, from the `switch (format)` of
main.ts: join with a space, join with a comma, or `JSON.stringify`. -/
def renderGroup (fmt : Format) (l : List String) : String :=
  match fmt with
  | Format.spaceDelimited => String.intercalate " " l
  | Format.csv => String.intercalate "," l
  | Format.json => renderJson l

/-- Failure messages of the extra space check in the space-delimited branch
of the rendering switch (one report per offending path of `all`, in order). -/
def renderFailures (fmt : Format) (g : Groups) : List String :=
  match fmt with
  | Format.spaceDelimited => (g.all.filter hasSpace).map (fun _ => spaceMessageRender)
  | _ => []

/-- The seven rendered strings passed to `core.setOutput`. -/
structure RunOutputs where
  all : String
  added : String
  modified : String
  removed : String
  renamed : String
  added_modified : String
  deleted : String
deriving DecidableEq

/-- Result of one invocation: the `core.setFailed` messages in order, the
classified groups, the outputs (none when the process exited before reaching
`core.setOutput`), and the process exit code. -/
structure RunResult where
  failures : List String
  groups : Groups
  outputs : Option RunOutputs
  exitCode : Nat
deriving DecidableEq

/-- The diff classifier and formatter part of `run()`: response checks,
extension filtering, classification, rendering, output emission.  Mirrors the
source, where `core.setFailed` does not halt: every failure is recorded and
execution continues through to the `core.setOutput` calls. -/
def runClassifier (eventName : String) (fmt : Format) (extInput : String)
    (resp : CompareResponse) : RunResult :=
  let f1 := if resp.status = 200 then [] else [apiErrorMessage eventName resp.status]
  let f2 := f1 ++ (if resp.dataStatus = "ahead" then [] else [aheadErrorMessage eventName])
  let exts := extensionsOf extInput
  let files := resp.files.filter (keepFile exts)
  let g := classify fmt files
  let f3 := f2 ++ g.failures ++ renderFailures fmt g
  let outs : RunOutputs :=
    { all := renderGroup fmt g.all,
      added := renderGroup fmt g.added,
      modified := renderGroup fmt g.modified,
      removed := renderGroup fmt g.removed,
      renamed := renderGroup fmt g.renamed,
      added_modified := renderGroup fmt g.addedModifiedRenamed,
      deleted := renderGroup fmt g.removed }
  { failures := f3, groups := g, outputs := some outs,
    exitCode := if f3 = [] then 0 else 1 }

/-- Model of the JavaScript regular-expression search
`(await git(['-P', 'branch'])).match(/develop|main|master/)`: leftmost match
position wins, and at a fixed position the alternatives are tried in the
written order.  Returns the match index together with the matched text. -/
def findBranchMatchIdx : List Char → Option (Nat × String)
  | [] => none
  | c :: rest =>
    if List.isPrefixOf "develop".data (c :: rest) then some (0, "develop")
    else if List.isPrefixOf "main".data (c :: rest) then some (0, "main")
    else if List.isPrefixOf "master".data (c :: rest) then some (0, "master")
    else
      match findBranchMatchIdx rest with
      | some p => some (p.1 + 1, p.2)
      | none => none

/-- The matched text of the branch regular-expression search (`parent[0]`). -/
def findBranchMatch (l : List Char) : Option String :=
  (findBranchMatchIdx l).map Prod.snd

/-- The workflow_dispatch handler: head is the current commit, base the first
regular-expression match in the branch listing; `none` models the
`panic('No parent branch found')` path, which exits the process. -/
def handleWorkflowDispatch (branchListing : String) (sha : String) :
    Option (String × String) :=
  (findBranchMatch branchListing.data).map (fun b => (b, sha))

/-- The full workflow_dispatch invocation: resolve base and head from the
branch listing, then run the classifier on the comparison response for that
pair.  On the panic path the process exits with code 1 before any output is
set. -/
def runActionDispatch (branchListing : String) (sha : String) (fmt : Format)
    (extInput : String) (compare : String → String → CompareResponse) : RunResult :=
  match handleWorkflowDispatch branchListing sha with
  | none =>
    { failures := ["No parent branch found"], groups := emptyGroups,
      outputs := none, exitCode := 1 }
  | some bh => runClassifier "workflow_dispatch" fmt extInput (compare bh.1 bh.2)

/-- Modelled from the spec: the boundary-anchored branch resolver that §8 of
the specification demands for the workflow_dispatch scenario (the repository
has no such code; the source uses a plain substring regular expression).
Branch names are the lines of the listing with the current-branch marker and
surrounding whitespace stripped, scanned in document order for a name equal
to develop, main or master. -/
def specBoundaryResolve (listing : String) : Option String :=
  ((splitOnChar '\n' listing.data).map
      (fun l => String.mk (trimChars (l.dropWhile (fun c => c = '*' || c = ' '))))).find?
    (fun n => n = "develop" || n = "main" || n = "master")

/-- The failure messages one classification step reports for one entry: the
space-in-filename report (space-delimited format only), then the
unsupported-status report for a status outside the four known kinds. -/
def stepFailures (fmt : Format) (e : ChangedFileEntry) : List String :=
  (if fmt = Format.spaceDelimited && hasSpace e.filename then [spaceMessageClassify] else []) ++
    (if e.status = "added" ∨ e.status = "modified" ∨ e.status = "removed" ∨ e.status = "renamed"
      then [] else [unsupportedStatusMessage e.status])

theorem classifyStep_all (fmt : Format) (g : Groups) (e : ChangedFileEntry) :
    (classifyStep fmt g e).all = g.all ++ [e.filename] := by
  simp only [classifyStep]
  split_ifs <;> rfl

theorem classifyStep_added (fmt : Format) (g : Groups) (e : ChangedFileEntry) :
    (classifyStep fmt g e).added
      = g.added ++ (if e.status = "added" then [e.filename] else []) := by
  simp only [classifyStep]
  split_ifs <;> simp_all

theorem classifyStep_modified (fmt : Format) (g : Groups) (e : ChangedFileEntry) :
    (classifyStep fmt g e).modified
      = g.modified ++ (if e.status = "modified" then [e.filename] else []) := by
  simp only [classifyStep]
  split_ifs <;> simp_all

theorem classifyStep_removed (fmt : Format) (g : Groups) (e : ChangedFileEntry) :
    (classifyStep fmt g e).removed
      = g.removed ++ (if e.status = "removed" then [e.filename] else []) := by
  simp only [classifyStep]
  split_ifs <;> simp_all

theorem classifyStep_renamed (fmt : Format) (g : Groups) (e : ChangedFileEntry) :
    (classifyStep fmt g e).renamed
      = g.renamed ++ (if e.status = "renamed" then [e.filename] else []) := by
  simp only [classifyStep]
  split_ifs <;> simp_all

theorem classifyStep_amr (fmt : Format) (g : Groups) (e : ChangedFileEntry) :
    (classifyStep fmt g e).addedModifiedRenamed
      = g.addedModifiedRenamed
          ++ (if e.status = "added" ∨ e.status = "modified" ∨ e.status = "renamed"
              then [e.filename] else []) := by
  simp only [classifyStep]
  split_ifs <;> simp_all

theorem classifyStep_failures (fmt : Format) (g : Groups) (e : ChangedFileEntry) :
    (classifyStep fmt g e).failures = g.failures ++ stepFailures fmt e := by
  simp only [classifyStep, stepFailures]
  split_ifs <;> simp_all

theorem classify_foldl_field (fmt : Format) (proj : Groups → List String)
    (h : ChangedFileEntry → List String)
    (hstep : ∀ g e, proj (classifyStep fmt g e) = proj g ++ h e)
    (l : List ChangedFileEntry) (g0 : Groups) :
    proj (List.foldl (classifyStep fmt) g0 l) = proj g0 ++ l.flatMap h := by
  induction l generalizing g0 with
  | nil => simp
  | cons e l ih => simp [List.foldl_cons, ih, hstep, List.append_assoc]

theorem flatMap_single {α β : Type} (l : List α) (f : α → β) :
    (l.flatMap fun a => [f a]) = l.map f := by
  induction l <;> simp_all

theorem flatMap_if_filter (l : List ChangedFileEntry) (p : ChangedFileEntry → Prop)
    [DecidablePred p] :
    (l.flatMap fun e => if p e then [e.filename] else [])
      = (l.filter fun e => decide (p e)).map ChangedFileEntry.filename := by
  induction l with
  | nil => simp
  | cons e l ih => by_cases h : p e <;> simp [h, ih]

theorem classify_all (fmt : Format) (files : List ChangedFileEntry) :
    (classify fmt files).all = files.map ChangedFileEntry.filename := by
  have h := classify_foldl_field fmt Groups.all (fun e => [e.filename])
    (classifyStep_all fmt) files emptyGroups
  simpa [emptyGroups, flatMap_single, classify] using h

theorem classify_added (fmt : Format) (files : List ChangedFileEntry) :
    (classify fmt files).added
      = (files.filter fun e => decide (e.status = "added")).map ChangedFileEntry.filename := by
  have h := classify_foldl_field fmt Groups.added
    (fun e => if e.status = "added" then [e.filename] else [])
    (classifyStep_added fmt) files emptyGroups
  rw [classify, h]
  simp [emptyGroups, flatMap_if_filter]

theorem classify_modified (fmt : Format) (files : List ChangedFileEntry) :
    (classify fmt files).modified
      = (files.filter fun e => decide (e.status = "modified")).map ChangedFileEntry.filename := by
  have h := classify_foldl_field fmt Groups.modified
    (fun e => if e.status = "modified" then [e.filename] else [])
    (classifyStep_modified fmt) files emptyGroups
  rw [classify, h]
  simp [emptyGroups, flatMap_if_filter]

theorem classify_removed (fmt : Format) (files : List ChangedFileEntry) :
    (classify fmt files).removed
      = (files.filter fun e => decide (e.status = "removed")).map ChangedFileEntry.filename := by
  have h := classify_foldl_field fmt Groups.removed
    (fun e => if e.status = "removed" then [e.filename] else [])
    (classifyStep_removed fmt) files emptyGroups
  rw [classify, h]
  simp [emptyGroups, flatMap_if_filter]

theorem classify_renamed (fmt : Format) (files : List ChangedFileEntry) :
    (classify fmt files).renamed
      = (files.filter fun e => decide (e.status = "renamed")).map ChangedFileEntry.filename := by
  have h := classify_foldl_field fmt Groups.renamed
    (fun e => if e.status = "renamed" then [e.filename] else [])
    (classifyStep_renamed fmt) files emptyGroups
  rw [classify, h]
  simp [emptyGroups, flatMap_if_filter]

theorem classify_amr (fmt : Format) (files : List ChangedFileEntry) :
    (classify fmt files).addedModifiedRenamed
      = (files.filter fun e =>
            decide (e.status = "added" ∨ e.status = "modified" ∨ e.status = "renamed")).map
          ChangedFileEntry.filename := by
  have h := classify_foldl_field fmt Groups.addedModifiedRenamed
    (fun e => if e.status = "added" ∨ e.status = "modified" ∨ e.status = "renamed"
      then [e.filename] else [])
    (classifyStep_amr fmt) files emptyGroups
  rw [classify, h]
  simp [emptyGroups, flatMap_if_filter]

theorem classify_failures (fmt : Format) (files : List ChangedFileEntry) :
    (classify fmt files).failures = files.flatMap (stepFailures fmt) := by
  have h := classify_foldl_field fmt Groups.failures (stepFailures fmt)
    (classifyStep_failures fmt) files emptyGroups
  simpa [emptyGroups, classify] using h

theorem runClassifier_groups (eventName : String) (fmt : Format) (extInput : String)
    (resp : CompareResponse) :
    (runClassifier eventName fmt extInput resp).groups
      = classify fmt (resp.files.filter (keepFile (extensionsOf extInput))) := rfl

/-- Value of one hexadecimal digit character, accepting both cases. -/
def hexVal (c : Char) : Option Nat :=
  if 48 ≤ c.toNat ∧ c.toNat ≤ 57 then some (c.toNat - 48)
  else if 97 ≤ c.toNat ∧ c.toNat ≤ 102 then some (c.toNat - 87)
  else if 65 ≤ c.toNat ∧ c.toNat ≤ 70 then some (c.toNat - 55)
  else none

/-- Value of a single-character JSON escape. -/
def escVal (c : Char) : Option Char :=
  if c = '"' then some '"'
  else if c = '\\' then some '\\'
  else if c = '/' then some '/'
  else if c = 'b' then some (Char.ofNat 8)
  else if c = 't' then some (Char.ofNat 9)
  else if c = 'n' then some (Char.ofNat 10)
  else if c = 'f' then some (Char.ofNat 12)
  else if c = 'r' then some (Char.ofNat 13)
  else none

/-- Standard JSON string-literal parsing after the opening quote: returns the
decoded characters and the input remaining after the closing quote.  Raw
control characters are rejected, escapes are decoded. -/
def parseStringBody : List Char → Option (List Char × List Char)
  | [] => none
  | c :: rest =>
    if c = '"' then some ([], rest)
    else if c = '\\' then
      match rest with
      | [] => none
      | e :: rest2 =>
        if e = 'u' then
          match rest2 with
          | h1 :: h2 :: h3 :: h4 :: rest3 =>
            match hexVal h1, hexVal h2, hexVal h3, hexVal h4 with
            | some a, some b, some c2, some d =>
              match parseStringBody rest3 with
              | some p => some (Char.ofNat (((a * 16 + b) * 16 + c2) * 16 + d) :: p.1, p.2)
              | none => none
            | _, _, _, _ => none
          | _ => none
        else
          match escVal e with
          | some ec =>
            match parseStringBody rest2 with
            | some p => some (ec :: p.1, p.2)
            | none => none
          | none => none
    else if c.toNat < 32 then none
    else
      match parseStringBody rest with
      | some p => some (c :: p.1, p.2)
      | none => none

/-- Comma-separated JSON string literals up to the closing bracket, which must
end the input.  The fuel bounds the number of elements. -/
def parseElems : Nat → List Char → Option (List (List Char))
  | 0, _ => none
  | Nat.succ fuel, l =>
    match l with
    | [] => none
    | c :: rest =>
      if c = '"' then
        match parseStringBody rest with
        | some p =>
          match p.2 with
          | ']' :: r2 => if r2 = [] then some [p.1] else none
          | ',' :: r2 =>
            match parseElems fuel r2 with
            | some ss => some (p.1 :: ss)
            | none => none
          | _ => none
        | none => none
      else none

/-- Standard JSON parsing of a complete array of strings, on character lists:
an opening bracket, then either an immediate closing bracket or the comma
separated elements, and nothing after the closing bracket. -/
def parseJsonArrayChars (l : List Char) : Option (List (List Char)) :=
  match l with
  | [] => none
  | c :: rest =>
    if c = '[' then
      match rest with
      | [] => none
      | c2 :: rest2 =>
        if c2 = ']' then (if rest2 = [] then some [] else none)
        else parseElems (c2 :: rest2).length (c2 :: rest2)
    else none

/-- Standard JSON parsing of an array of strings. -/
def parseJsonArray (s : String) : Option (List String) :=
  (parseJsonArrayChars s.data).map (fun l => l.map String.mk)

theorem hexVal_hexDigitChar (d : Nat) (h : d < 16) : hexVal (hexDigitChar d) = some d := by
  interval_cases d <;> decide

theorem parseStringBody_esc (e ec : Char) (tail cs rest : List Char)
    (hne : ¬ e = 'u') (he : escVal e = some ec)
    (ih : parseStringBody tail = some (cs, rest)) :
    parseStringBody ('\\' :: e :: tail) = some (ec :: cs, rest) := by
  rw [parseStringBody.eq_def]
  simp [hne, he, ih]

theorem parseStringBody_u (a b c2 d : Char) (va vb vc2 vd : Nat) (tail cs rest : List Char)
    (ha : hexVal a = some va) (hb : hexVal b = some vb)
    (hc : hexVal c2 = some vc2) (hd : hexVal d = some vd)
    (ih : parseStringBody tail = some (cs, rest)) :
    parseStringBody ('\\' :: 'u' :: a :: b :: c2 :: d :: tail)
      = some (Char.ofNat (((va * 16 + vb) * 16 + vc2) * 16 + vd) :: cs, rest) := by
  rw [parseStringBody.eq_def]
  simp [ha, hb, hc, hd, ih]

theorem parseStringBody_plain (c : Char) (tail cs rest : List Char)
    (h1 : ¬ c = '"') (h2 : ¬ c = '\\') (h3 : ¬ c.toNat < 32)
    (ih : parseStringBody tail = some (cs, rest)) :
    parseStringBody (c :: tail) = some (c :: cs, rest) := by
  rw [parseStringBody.eq_def]
  simp [h1, h2, h3, ih]

theorem parseStringBody_escapeList (x rest : List Char) :
    parseStringBody (escapeList x ++ '"' :: rest) = some (x, rest) := by
  induction x generalizing rest with
  | nil =>
    rw [escapeList, List.nil_append, parseStringBody.eq_def]
    simp
  | cons c cs ih =>
    have ihtail := ih rest
    rw [escapeList, List.append_assoc]
    by_cases h1 : c = '"'
    · subst h1
      have hesc : escapeChar '"' = ['\\', '"'] := by decide
      rw [hesc]
      exact parseStringBody_esc _ _ _ _ _ (by decide) (by decide) ihtail
    · by_cases h2 : c = '\\'
      · subst h2
        have hesc : escapeChar '\\' = ['\\', '\\'] := by decide
        rw [hesc]
        exact parseStringBody_esc _ _ _ _ _ (by decide) (by decide) ihtail
      · by_cases h3 : c.toNat = 8
        · have hc : Char.ofNat 8 = c := by rw [← h3, Char.ofNat_toNat]
          have hesc : escapeChar c = ['\\', 'b'] := by simp [escapeChar, h1, h2, h3]
          rw [hesc, ← hc]
          exact parseStringBody_esc _ _ _ _ _ (by decide) (by decide) ihtail
        · by_cases h4 : c.toNat = 9
          · have hc : Char.ofNat 9 = c := by rw [← h4, Char.ofNat_toNat]
            have hesc : escapeChar c = ['\\', 't'] := by simp [escapeChar, h1, h2, h3, h4]
            rw [hesc, ← hc]
            exact parseStringBody_esc _ _ _ _ _ (by decide) (by decide) ihtail
          · by_cases h5 : c.toNat = 10
            · have hc : Char.ofNat 10 = c := by rw [← h5, Char.ofNat_toNat]
              have hesc : escapeChar c = ['\\', 'n'] := by simp [escapeChar, h1, h2, h3, h4, h5]
              rw [hesc, ← hc]
              exact parseStringBody_esc _ _ _ _ _ (by decide) (by decide) ihtail
            · by_cases h6 : c.toNat = 12
              · have hc : Char.ofNat 12 = c := by rw [← h6, Char.ofNat_toNat]
                have hesc : escapeChar c = ['\\', 'f'] := by
                  simp [escapeChar, h1, h2, h3, h4, h5, h6]
                rw [hesc, ← hc]
                exact parseStringBody_esc _ _ _ _ _ (by decide) (by decide) ihtail
              · by_cases h7 : c.toNat = 13
                · have hc : Char.ofNat 13 = c := by rw [← h7, Char.ofNat_toNat]
                  have hesc : escapeChar c = ['\\', 'r'] := by
                    simp [escapeChar, h1, h2, h3, h4, h5, h6, h7]
                  rw [hesc, ← hc]
                  exact parseStringBody_esc _ _ _ _ _ (by decide) (by decide) ihtail
                · by_cases h8 : c.toNat < 32
                  · have hesc : escapeChar c
                        = ['\\', 'u', '0', '0', hexDigitChar (c.toNat / 16),
                            hexDigitChar (c.toNat % 16)] := by
                      simp [escapeChar, h1, h2, h3, h4, h5, h6, h7, h8]
                    have hval : (((0 * 16 + 0) * 16 + c.toNat / 16) * 16 + c.toNat % 16)
                        = c.toNat := by omega
                    have hres := parseStringBody_u '0' '0'
                      (hexDigitChar (c.toNat / 16)) (hexDigitChar (c.toNat % 16))
                      0 0 (c.toNat / 16) (c.toNat % 16) _ cs rest
                      (by decide) (by decide)
                      (hexVal_hexDigitChar _ (by omega))
                      (hexVal_hexDigitChar _ (by omega)) ihtail
                    rw [hesc]
                    rw [hval] at hres
                    simpa [Char.ofNat_toNat] using hres
                  · have hesc : escapeChar c = [c] := by
                      simp [escapeChar, h1, h2, h3, h4, h5, h6, h7, h8]
                    rw [hesc]
                    exact parseStringBody_plain _ _ _ _ h1 h2 h8 ihtail

theorem parseElems_render (xs : List (List Char)) (x : List Char) (fuel : Nat)
    (hfuel : xs.length < fuel) :
    parseElems fuel (renderElemsChars (x :: xs) ++ [']']) = some (x :: xs) := by
  induction xs generalizing x fuel with
  | nil =>
    cases fuel with
    | zero => exact absurd hfuel (Nat.not_lt_zero _)
    | succ f =>
      rw [show renderElemsChars [x] ++ [']'] = '"' :: (escapeList x ++ '"' :: [']']) from by
        simp [renderElemsChars, renderStringChars, List.append_assoc]]
      rw [parseElems.eq_def]
      simp [parseStringBody_escapeList]
  | cons y ys ih =>
    cases fuel with
    | zero => exact absurd hfuel (Nat.not_lt_zero _)
    | succ f =>
      have hren : renderElemsChars (x :: y :: ys)
          = renderStringChars x ++ ',' :: renderElemsChars (y :: ys) := rfl
      have hf : ys.length < f := by
        simp only [List.length_cons] at hfuel
        omega
      rw [show renderElemsChars (x :: y :: ys) ++ [']']
            = '"' :: (escapeList x ++ '"' :: (',' :: (renderElemsChars (y :: ys) ++ [']']))) from by
        simp [hren, renderStringChars, List.append_assoc]]
      rw [parseElems.eq_def]
      simp [parseStringBody_escapeList, ih y f hf]

theorem renderElems_length_ge (x : List Char) (xs : List (List Char)) :
    xs.length < (renderElemsChars (x :: xs) ++ [']']).length := by
  induction xs generalizing x with
  | nil => simp
  | cons y ys ih =>
    have hren : renderElemsChars (x :: y :: ys)
        = renderStringChars x ++ ',' :: renderElemsChars (y :: ys) := rfl
    have h2 := ih y
    rw [hren]
    simp only [renderStringChars, List.length_append, List.length_cons] at h2 ⊢
    omega

theorem parseJsonArrayChars_render (l : List (List Char)) :
    parseJsonArrayChars (renderJsonChars l) = some l := by
  cases l with
  | nil => decide
  | cons x xs =>
    have hr : renderJsonChars (x :: xs) = '[' :: (renderElemsChars (x :: xs) ++ [']']) := rfl
    obtain ⟨t, ht⟩ : ∃ t, renderElemsChars (x :: xs) ++ [']'] = '"' :: t := by
      cases xs with
      | nil => exact ⟨(escapeList x ++ ['"']) ++ [']'], rfl⟩
      | cons y ys => exact ⟨(escapeList x ++ ['"']) ++ (',' :: renderElemsChars (y :: ys)) ++ [']'], rfl⟩
    rw [hr, parseJsonArrayChars.eq_def]
    rw [ht]
    simp only []
    rw [show (('"' :: t : List Char).length) = ('"' :: t).length from rfl]
    rw [← ht]
    have := parseElems_render xs x (renderElemsChars (x :: xs) ++ [']']).length
      (renderElems_length_ge x xs)
    simp [ht] at this ⊢
    exact this

theorem parseJsonArray_renderJson (l : List String) :
    parseJsonArray (renderJson l) = some l := by
  unfold parseJsonArray renderJson
  have hdata : (String.mk (renderJsonChars (l.map String.data))).data
      = renderJsonChars (l.map String.data) := rfl
  rw [hdata, parseJsonArrayChars_render]
  have hmap : (l.map String.data).map String.mk = l := by
    rw [List.map_map]
    have h1 : (String.mk ∘ String.data) = id := funext (fun s => rfl)
    rw [h1, List.map_id]
  simp [hmap]

theorem splitOnChar_ne_nil (sep : Char) (l : List Char) : splitOnChar sep l ≠ [] := by
  induction l with
  | nil => simp [splitOnChar]
  | cons c rest ih =>
    rw [splitOnChar.eq_def]
    by_cases hc : c = sep
    · simp [hc]
    · simp only [hc, if_false]
      cases h : splitOnChar sep rest <;> simp

theorem splitOnChar_cons (sep c : Char) (rest : List Char) :
    splitOnChar sep (c :: rest)
      = (if c = sep then [] :: splitOnChar sep rest
         else match splitOnChar sep rest with
              | [] => [[c]]
              | t :: ts => (c :: t) :: ts) := rfl

theorem splitOnChar_append (sep : Char) (a b : List Char) :
    splitOnChar sep (a ++ sep :: b) = splitOnChar sep a ++ splitOnChar sep b := by
  induction a with
  | nil =>
    rw [List.nil_append, splitOnChar_cons, if_pos rfl]
    rfl
  | cons c a ih =>
    by_cases hc : c = sep
    · subst hc
      rw [List.cons_append, splitOnChar_cons, if_pos rfl, ih, splitOnChar_cons, if_pos rfl,
        List.cons_append]
    · obtain ⟨t, ts, hts⟩ := List.exists_cons_of_ne_nil (splitOnChar_ne_nil sep a)
      rw [List.cons_append, splitOnChar_cons, if_neg hc, ih, hts, List.cons_append,
        splitOnChar_cons, if_neg hc, hts]
      rfl

theorem empty_mem_extensionsOf (input : String) (h : [] ∈ splitOnChar ' ' input.data) :
    "" ∈ extensionsOf input := by
  unfold extensionsOf
  exact List.mem_map.mpr ⟨[], h, rfl⟩

theorem keepFile_of_empty_mem (exts : List String) (e : ChangedFileEntry)
    (h : "" ∈ exts) : keepFile exts e = true := by
  unfold keepFile
  have h2 : exts.contains "" = true := by
    simpa [List.contains, List.elem_iff] using h
  rw [h2, Bool.or_true]

theorem findBranchMatchIdx_cons (c : Char) (rest : List Char) :
    findBranchMatchIdx (c :: rest)
      = (if List.isPrefixOf "develop".data (c :: rest) then some (0, "develop")
         else if List.isPrefixOf "main".data (c :: rest) then some (0, "main")
         else if List.isPrefixOf "master".data (c :: rest) then some (0, "master")
         else match findBranchMatchIdx rest with
              | some p => some (p.1 + 1, p.2)
              | none => none) := rfl

theorem findBranchMatchIdx_some (l : List Char) (i : Nat) (b : String)
    (h : findBranchMatchIdx l = some (i, b)) :
    (b = "develop" ∨ b = "main" ∨ b = "master") ∧ b.data <:+: l := by
  induction l generalizing i with
  | nil =>
    rw [findBranchMatchIdx.eq_def] at h
    exact Option.noConfusion h
  | cons c rest ih =>
    rw [findBranchMatchIdx_cons] at h
    by_cases hp1 : List.isPrefixOf "develop".data (c :: rest)
    · rw [if_pos hp1] at h
      have hb : b = "develop" := (congrArg Prod.snd (Option.some.inj h)).symm
      subst hb
      exact ⟨Or.inl rfl, (List.isPrefixOf_iff_prefix.mp hp1).isInfix⟩
    · rw [if_neg hp1] at h
      by_cases hp2 : List.isPrefixOf "main".data (c :: rest)
      · rw [if_pos hp2] at h
        have hb : b = "main" := (congrArg Prod.snd (Option.some.inj h)).symm
        subst hb
        exact ⟨Or.inr (Or.inl rfl), (List.isPrefixOf_iff_prefix.mp hp2).isInfix⟩
      · rw [if_neg hp2] at h
        by_cases hp3 : List.isPrefixOf "master".data (c :: rest)
        · rw [if_pos hp3] at h
          have hb : b = "master" := (congrArg Prod.snd (Option.some.inj h)).symm
          subst hb
          exact ⟨Or.inr (Or.inr rfl), (List.isPrefixOf_iff_prefix.mp hp3).isInfix⟩
        · rw [if_neg hp3] at h
          cases hrec : findBranchMatchIdx rest with
          | none => rw [hrec] at h; exact Option.noConfusion h
          | some p =>
            rw [hrec] at h
            have hb : b = p.2 := (congrArg Prod.snd (Option.some.inj h)).symm
            obtain ⟨hset, hinf⟩ := ih p.1 (by rw [hrec, hb])
            exact ⟨hset, List.infix_cons hinf⟩

theorem findBranchMatchIdx_none (l : List Char)
    (h : ∀ b ∈ (["develop", "main", "master"] : List String), ¬ (b.data <:+: l)) :
    findBranchMatchIdx l = none := by
  cases hm : findBranchMatchIdx l with
  | none => rfl
  | some p =>
    obtain ⟨hset, hinf⟩ := findBranchMatchIdx_some l p.1 p.2 (by rw [hm])
    have hb : p.2 ∈ (["develop", "main", "master"] : List String) := by
      rcases hset with h1 | h1 | h1 <;> simp [h1]
    exact absurd hinf (h p.2 hb)

theorem runClassifier_failures (eventName : String) (fmt : Format) (extInput : String)
    (resp : CompareResponse) :
    (runClassifier eventName fmt extInput resp).failures
      = ((if resp.status = 200 then [] else [apiErrorMessage eventName resp.status])
            ++ (if resp.dataStatus = "ahead" then [] else [aheadErrorMessage eventName]))
          ++ (classify fmt (resp.files.filter (keepFile (extensionsOf extInput)))).failures
          ++ renderFailures fmt
              (classify fmt (resp.files.filter (keepFile (extensionsOf extInput)))) := rfl

theorem runClassifier_exitCode (eventName : String) (fmt : Format) (extInput : String)
    (resp : CompareResponse) :
    (runClassifier eventName fmt extInput resp).exitCode
      = (if (runClassifier eventName fmt extInput resp).failures = [] then 0 else 1) := rfl

/-- Sample response: head ahead of base, one added TypeScript file and one
removed Markdown file. -/
def sampleAhead : CompareResponse :=
  { status := 200, dataStatus := "ahead",
    files := [{ filename := "x.ts", status := "added" },
              { filename := "y.md", status := "removed" }] }

/-- Sample response whose only file has a space in its name. -/
def spaceResp : CompareResponse :=
  { status := 200, dataStatus := "ahead",
    files := [{ filename := "a b.txt", status := "added" }] }

/-- Sample response with a failing HTTP status and a non-ahead comparison. -/
def badResp : CompareResponse :=
  { status := 500, dataStatus := "behind",
    files := [{ filename := "x.ts", status := "added" }] }

/-- Sample response with a file status outside the four known kinds. -/
def unknownResp : CompareResponse :=
  { status := 200, dataStatus := "ahead",
    files := [{ filename := "q.c", status := "copied" }] }

/-- Claim C1: for every comparison result with status ahead, the `all` group is
the list of returned filenames, each exactly once, in returned order,
restricted to the entries accepted by the extension filter; with an empty
`extensions` input every entry is accepted. -/
theorem claim_c1_all_output (eventName : String) (fmt : Format) (extInput : String)
    (resp : CompareResponse) (hahead : resp.dataStatus = "ahead") :
    (runClassifier eventName fmt extInput resp).groups.all
      = (resp.files.filter (keepFile (extensionsOf extInput))).map ChangedFileEntry.filename
    ∧ (extInput = "" →
        (runClassifier eventName fmt extInput resp).groups.all
          = resp.files.map ChangedFileEntry.filename) := by
  constructor
  · rw [runClassifier_groups, classify_all]
  · intro he
    subst he
    rw [runClassifier_groups, classify_all]
    congr 1
    apply List.filter_eq_self.mpr
    intro e he2
    exact keepFile_of_empty_mem _ e (empty_mem_extensionsOf "" (by decide))

/-- Witness for C1 at a concrete ahead response with an empty filter. -/
theorem claim_c1_all_output_witness :
    (runClassifier "push" Format.csv "" sampleAhead).groups.all = ["x.ts", "y.md"] := by
  have h := (claim_c1_all_output "push" Format.csv "" sampleAhead rfl).2 rfl
  rw [h]
  decide

/-- Claim C2: the added-modified-renamed union group is the order-preserving
interleaved sublist of the filtered entries whose status is added, modified or
renamed, under the same extension filtering as `all`. -/
theorem claim_c2_added_modified (eventName : String) (fmt : Format) (extInput : String)
    (resp : CompareResponse) :
    (runClassifier eventName fmt extInput resp).groups.addedModifiedRenamed
      = ((resp.files.filter (keepFile (extensionsOf extInput))).filter
            (fun e => decide (e.status = "added" ∨ e.status = "modified"
              ∨ e.status = "renamed"))).map ChangedFileEntry.filename := by
  rw [runClassifier_groups, classify_amr]

set_option maxRecDepth 8192 in
/-- Claim C3, code-bug evidence: with space-delimited format and a filename
containing a space, the source reports the failure (and the process exit code
is failing) but still continues and emits all outputs, including the
offending path. -/
theorem claim_c3_space_divergence :
    spaceMessageClassify ∈ (runClassifier "push" Format.spaceDelimited "" spaceResp).failures
    ∧ spaceMessageRender ∈ (runClassifier "push" Format.spaceDelimited "" spaceResp).failures
    ∧ (runClassifier "push" Format.spaceDelimited "" spaceResp).exitCode = 1
    ∧ (runClassifier "push" Format.spaceDelimited "" spaceResp).outputs
        = some { all := "a b.txt", added := "a b.txt", modified := "", removed := "",
                 renamed := "", added_modified := "a b.txt", deleted := "" } := by
  decide

set_option maxRecDepth 8192 in
/-- Claim C4, code-bug evidence: with a non-200 status and a non-ahead
comparison, the source reports both failures, naming the event kind, but
still continues and emits all outputs. -/
theorem claim_c4_api_divergence :
    apiErrorMessage "pull_request" 500
        ∈ (runClassifier "pull_request" Format.csv "" badResp).failures
    ∧ aheadErrorMessage "pull_request"
        ∈ (runClassifier "pull_request" Format.csv "" badResp).failures
    ∧ (runClassifier "pull_request" Format.csv "" badResp).exitCode = 1
    ∧ (runClassifier "pull_request" Format.csv "" badResp).outputs
        = some { all := "x.ts", added := "x.ts", modified := "", removed := "",
                 renamed := "", added_modified := "x.ts", deleted := "" } := by
  decide

/-- Claim C5: every surviving entry path lands in `all`; the four status
buckets are exactly the filtered sublists for the four known statuses (so an
entry with a known status lands in exactly one bucket, the statuses being
mutually exclusive); and an entry with any other status is reported as a
failure and makes the run fail, never being silently dropped. -/
theorem claim_c5_classification (eventName : String) (fmt : Format) (extInput : String)
    (resp : CompareResponse) :
    (runClassifier eventName fmt extInput resp).groups.all
      = (resp.files.filter (keepFile (extensionsOf extInput))).map ChangedFileEntry.filename
    ∧ (runClassifier eventName fmt extInput resp).groups.added
      = ((resp.files.filter (keepFile (extensionsOf extInput))).filter
            (fun e => decide (e.status = "added"))).map ChangedFileEntry.filename
    ∧ (runClassifier eventName fmt extInput resp).groups.modified
      = ((resp.files.filter (keepFile (extensionsOf extInput))).filter
            (fun e => decide (e.status = "modified"))).map ChangedFileEntry.filename
    ∧ (runClassifier eventName fmt extInput resp).groups.removed
      = ((resp.files.filter (keepFile (extensionsOf extInput))).filter
            (fun e => decide (e.status = "removed"))).map ChangedFileEntry.filename
    ∧ (runClassifier eventName fmt extInput resp).groups.renamed
      = ((resp.files.filter (keepFile (extensionsOf extInput))).filter
            (fun e => decide (e.status = "renamed"))).map ChangedFileEntry.filename
    ∧ (∀ e ∈ resp.files.filter (keepFile (extensionsOf extInput)),
        ¬ (e.status = "added" ∨ e.status = "modified" ∨ e.status = "removed"
            ∨ e.status = "renamed") →
        unsupportedStatusMessage e.status ∈ (runClassifier eventName fmt extInput resp).failures
          ∧ (runClassifier eventName fmt extInput resp).exitCode = 1) := by
  refine ⟨?_, ?_, ?_, ?_, ?_, ?_⟩
  · rw [runClassifier_groups, classify_all]
  · rw [runClassifier_groups, classify_added]
  · rw [runClassifier_groups, classify_modified]
  · rw [runClassifier_groups, classify_removed]
  · rw [runClassifier_groups, classify_renamed]
  · intro e he hunk
    have hm : unsupportedStatusMessage e.status
        ∈ (classify fmt (resp.files.filter (keepFile (extensionsOf extInput)))).failures := by
      rw [classify_failures]
      refine List.mem_flatMap.mpr ⟨e, he, ?_⟩
      unfold stepFailures
      apply List.mem_append_right
      rw [if_neg hunk]
      exact List.mem_singleton.mpr rfl
    have hin : unsupportedStatusMessage e.status
        ∈ (runClassifier eventName fmt extInput resp).failures := by
      rw [runClassifier_failures]
      simp only [List.mem_append]
      exact Or.inl (Or.inr hm)
    exact ⟨hin, by rw [runClassifier_exitCode, if_neg (List.ne_nil_of_mem hin)]⟩

/-- Witness for C5 at a response whose single entry has the unknown status
copied. -/
theorem claim_c5_classification_witness :
    unsupportedStatusMessage "copied" ∈ (runClassifier "push" Format.csv "" unknownResp).failures
    ∧ (runClassifier "push" Format.csv "" unknownResp).exitCode = 1 :=
  (claim_c5_classification "push" Format.csv "" unknownResp).2.2.2.2.2
    { filename := "q.c", status := "copied" } (by decide) (by decide)

/-- Claim C6: the rendered string emitted under the output name deleted is
identical to the one emitted under removed, for every input and format (the
source sets both from the same variable). -/
theorem claim_c6_deleted_removed (eventName : String) (fmt : Format) (extInput : String)
    (resp : CompareResponse) :
    ((runClassifier eventName fmt extInput resp).outputs).map RunOutputs.deleted
      = ((runClassifier eventName fmt extInput resp).outputs).map RunOutputs.removed := rfl

/-- Claim C7: a workflow_dispatch event whose branch listing has no substring
match for develop, main or master panics: the descriptive message is
reported, the process exits with code 1, and no outputs are emitted. -/
theorem claim_c7_no_parent (listing sha : String) (fmt : Format) (extInput : String)
    (compare : String → String → CompareResponse)
    (h : ∀ b ∈ (["develop", "main", "master"] : List String), ¬ (b.data <:+: listing.data)) :
    runActionDispatch listing sha fmt extInput compare
      = { failures := ["No parent branch found"], groups := emptyGroups,
          outputs := none, exitCode := 1 } := by
  unfold runActionDispatch handleWorkflowDispatch findBranchMatch
  rw [findBranchMatchIdx_none listing.data h]
  rfl

/-- Witness for C7 at a listing with a single unrelated branch. -/
theorem claim_c7_no_parent_witness :
    runActionDispatch "* trunk" "abc123" Format.json ""
        (fun _ _ => { status := 200, dataStatus := "ahead", files := [] })
      = { failures := ["No parent branch found"], groups := emptyGroups,
          outputs := none, exitCode := 1 } :=
  claim_c7_no_parent "* trunk" "abc123" Format.json "" _ (by decide)

/-- Claim C8, counterexample to boundary anchoring: the regular-expression
scan matches at index 10, inside the token feature/main-fix (respectively
feature/master-fix), not at a branch-name boundary; on the master variant it
therefore returns master while the boundary-anchored scan demanded by the
specification returns main. -/
theorem claim_c8_counterexample :
    findBranchMatchIdx "  feature/main-fix\n* main".data = some (10, "main")
    ∧ findBranchMatchIdx "  feature/master-fix\n* main".data = some (10, "master")
    ∧ specBoundaryResolve "  feature/master-fix\n* main" = some "main" := by
  decide

/-- Claim C8 as amended: on the scenario listing the resolver does select
main as base, but as the leftmost substring match, found at index 10 inside
feature/main-fix; the same result is produced even when no standalone main
branch is present at all. -/
theorem claim_c8_amended :
    handleWorkflowDispatch "  feature/main-fix\n* main" "deadbeef" = some ("main", "deadbeef")
    ∧ findBranchMatchIdx "  feature/main-fix\n* main".data = some (10, "main")
    ∧ findBranchMatch "  feature/main-fix".data = some "main" := by
  decide

/-- Claim C9: rendering any classified group under the json format and then
parsing the result as JSON yields exactly the ordered list of paths placed
into that group during classification. -/
theorem claim_c9_json_roundtrip (fmt : Format) (files : List ChangedFileEntry) :
    parseJsonArray (renderGroup Format.json (classify fmt files).all)
        = some ((classify fmt files).all)
    ∧ parseJsonArray (renderGroup Format.json (classify fmt files).added)
        = some ((classify fmt files).added)
    ∧ parseJsonArray (renderGroup Format.json (classify fmt files).modified)
        = some ((classify fmt files).modified)
    ∧ parseJsonArray (renderGroup Format.json (classify fmt files).removed)
        = some ((classify fmt files).removed)
    ∧ parseJsonArray (renderGroup Format.json (classify fmt files).renamed)
        = some ((classify fmt files).renamed)
    ∧ parseJsonArray (renderGroup Format.json (classify fmt files).addedModifiedRenamed)
        = some ((classify fmt files).addedModifiedRenamed) :=
  ⟨parseJsonArray_renderJson _, parseJsonArray_renderJson _, parseJsonArray_renderJson _,
    parseJsonArray_renderJson _, parseJsonArray_renderJson _, parseJsonArray_renderJson _⟩

/-- Claim C10: a non-empty extensions input with a leading space, trailing
space or two consecutive spaces splits into a token list containing the empty
token, so the filter accepts every file; in general a file is kept exactly
when its extension, or the empty string, occurs among the split-and-trimmed
tokens of the extensions input. -/
theorem claim_c10_extension_filter (input : String) (e : ChangedFileEntry) :
    (input ≠ "" →
      (input.data.head? = some ' ' ∨ input.data.getLast? = some ' '
          ∨ [' ', ' '] <:+: input.data) →
      keepFile (extensionsOf input) e = true)
    ∧ (keepFile (extensionsOf input) e = true
        ↔ (extname e.filename ∈ extensionsOf input ∨ "" ∈ extensionsOf input)) := by
  constructor
  · intro hne hsp
    apply keepFile_of_empty_mem _ e
    apply empty_mem_extensionsOf
    rcases hsp with h | h | h
    · obtain ⟨c, rest, hcons⟩ : ∃ c rest, input.data = c :: rest := by
        cases hd : input.data with
        | nil => rw [hd] at h; exact absurd h (by simp)
        | cons c rest => exact ⟨c, rest, rfl⟩
      rw [hcons] at h ⊢
      have hc : c = ' ' := by simpa using h
      rw [hc, splitOnChar_cons, if_pos rfl]
      exact List.mem_cons_self _ _
    · obtain ⟨ys, hys⟩ := List.getLast?_eq_some_iff.mp h
      rw [hys, show ys ++ [' '] = ys ++ ' ' :: ([] : List Char) from rfl, splitOnChar_append]
      apply List.mem_append_right
      simp [splitOnChar]
    · obtain ⟨s, t, hst⟩ := h
      rw [← hst, show s ++ [' ', ' '] ++ t = s ++ ' ' :: (' ' :: t) from by simp,
        splitOnChar_append]
      apply List.mem_append_right
      rw [splitOnChar_cons, if_pos rfl]
      exact List.mem_cons_self _ _
  · simp [keepFile, List.contains, List.elem_iff]

/-- Witness for C10: a leading space in the extensions input makes the filter
accept a file whose extension is not listed. -/
theorem claim_c10_extension_filter_witness :
    keepFile (extensionsOf " .ts") { filename := "x.js", status := "added" } = true :=
  (claim_c10_extension_filter " .ts" { filename := "x.js", status := "added" }).1
    (by decide) (Or.inl (by decide))
